import Mathlib

/-!
# lsp-proxy: WebSocket to stdio bridge (`main.go`)

A shallow embedding of the two pumps of `main.go` and of the session
sequence of `serveWs`.  Go strings and byte slices are lists of bytes; the
library calls the source makes (`bufio.Reader.ReadString`, `strings.Index`,
`strings.TrimSpace`, `strconv.ParseInt`, `io.ReadFull`, `make`, `append`,
`fmt.Fprintf` with `%d`) are modelled next to the source code that uses
them.  Effects on the WebSocket connection, on the subprocess pipes and on
the `done` channel are recorded as a trace of events in program order.
-/

namespace LspProxy

/-- A Go `byte`. -/
abbrev Byte := UInt8

/-- The bytes of an ASCII string literal of the source. -/
def bytes (s : String) : List Byte := s.data.map (fun c => UInt8.ofNat c.toNat)

/-- The constant `maxMessageSize` of `main.go` ("Maximum message size allowed
from peer."). -/
def maxMessageSize : Nat := 8192

/-! ## `fmt.Fprintf` with `%d` -/

/-- The digit loop of `fmt` for a non-negative integer in base 10: while
`u >= 10` the low digit is stored in front of the digits produced so far and
`u` is divided by 10; the last digit is stored when `u < 10`.  The first
argument bounds the number of iterations. -/
def fmtDigits : Nat → Nat → List Byte → List Byte
  | 0, _, acc => acc
  | fuel + 1, u, acc =>
    if 10 ≤ u then fmtDigits fuel (u / 10) (UInt8.ofNat (48 + u % 10) :: acc)
    else UInt8.ofNat (48 + u) :: acc

/-- What `%d` prints for a non-negative `int`: base 10, no sign, no leading
zeros. -/
def decimal (n : Nat) : List Byte := fmtDigits (n + 1) n []

/-! ## The effects of the program -/

/-- One effect of the program, in the order the goroutine performs it. -/
inductive Event where
  /-- Bytes handed to the subprocess input by one `Write` call (`fmt.Fprintf(w, ...)`
  or `w.Write(message)`), as far as the call delivered them. -/
  | stdinWrite (p : List Byte)
  /-- Call `ws.WriteMessage(websocket.TextMessage, data)`. -/
  | wsWriteMessage (data : List Byte)
  /-- Call `ws.WriteMessage(websocket.CloseMessage, ...)`. -/
  | wsWriteClose
  /-- Call `ws.Close()`. -/
  | wsClose
  /-- Statement `close(done)`. -/
  | closeDone
  /-- Call `time.Sleep(closeGracePeriod)`. -/
  | sleepGrace
  /-- Runtime panic of `make([]byte, length)` with a negative length. -/
  | panicMakeslice
  /-- Call `log.Println("upgrade:", err)`. -/
  | logUpgrade
  /-- Call `cmd.Start()`. -/
  | cmdStart
  /-- Statement `go pumpStdout(ws, outr, done)`. -/
  | goPumpStdout
  /-- Statement `go ping(ws, done)`. -/
  | goPing
  /-- Call `inw.Close()`. -/
  | inwClose
  /-- Call `cmd.Process.Signal(os.Interrupt)`. -/
  | signalInterrupt
  /-- Call `cmd.Process.Signal(os.Kill)`. -/
  | signalKill
  /-- A receive `<-done` that completed. -/
  | recvDone
  /-- Call `cmd.Process.Wait()`. -/
  | processWait
  deriving DecidableEq, Repr

/-! ## The WebSocket connection as `pumpStdin` sees it -/

/-- The read side of a `*websocket.Conn`: the read limit of the connection
(0 means no limit, the value a connection has until `SetReadLimit` is
called) and the messages the peer sends, in order.  After the last message
the peer is gone and `ReadMessage` fails. -/
structure Conn where
  readLimit : Nat
  incoming : List (List Byte)
  deriving DecidableEq, Repr

/-- The connection `upgrader.Upgrade` returns: no read limit is set. -/
def Upgrade (incoming : List (List Byte)) : Conn :=
  { readLimit := 0, incoming := incoming }

/-- Result of one `Write` on the subprocess input: `none` when the whole
buffer was written, `some k` when the call failed after `k` bytes. -/
abbrev WriteOutcome := Option Nat

/-- The result of the next `Write`, given the results still listed. -/
def nextWrite (outcomes : List WriteOutcome) : WriteOutcome := outcomes.head?.join

/-- The loop of `pumpStdin` over the messages still to come, for a
connection with read limit `readLimit`; `outcomes` are the results of the
successive writes to `w` (every write after the listed ones succeeds).
`ReadMessage` fails when the peer is gone or when the message is longer
than a non-zero read limit. -/
def pumpStdinLoop (readLimit : Nat) : List (List Byte) → List WriteOutcome → List Event
  | [], _ => []
  | m :: rest, outcomes =>
    if readLimit ≠ 0 ∧ readLimit < m.length then []
    else
      let message := m ++ [13, 10]
      let header := bytes "Content-Length: " ++ decimal message.length ++ [13, 10, 13, 10]
      match nextWrite outcomes with
      | some k => [Event.stdinWrite (header.take k)]
      | none =>
        match nextWrite outcomes.tail with
        | some k => [Event.stdinWrite header, Event.stdinWrite (message.take k)]
        | none =>
          Event.stdinWrite header :: Event.stdinWrite message ::
            pumpStdinLoop readLimit rest outcomes.tail.tail

/-- Function `pumpStdin(ws, w)`: the loop, then the deferred `ws.Close()`. -/
def pumpStdin (ws : Conn) (outcomes : List WriteOutcome) : List Event :=
  pumpStdinLoop ws.readLimit ws.incoming outcomes ++ [Event.wsClose]

/-- The bytes that reached the subprocess input, in order. -/
def stdinBytes : List Event → List Byte
  | [] => []
  | Event.stdinWrite p :: t => p ++ stdinBytes t
  | _ :: t => stdinBytes t

/-! ## Library calls of `pumpStdout` -/

/-- Result of `rd.ReadString(delim)` on a reader whose remaining input is a
finite byte sequence: the bytes read, the input left, and whether the call
returned `io.EOF` (the input ended before a delimiter). -/
structure Line where
  line : List Byte
  rest : List Byte
  eof : Bool
  deriving DecidableEq, Repr

/-- Method `ReadString` of `bufio.Reader`: reads up to and including the
first `delim`; at end of input it returns what it read together with
`io.EOF`. -/
def ReadString (delim : Byte) : List Byte → Line
  | [] => { line := [], rest := [], eof := true }
  | b :: s =>
    if b = delim then { line := [b], rest := s, eof := false }
    else
      let r := ReadString delim s
      { line := b :: r.line, rest := r.rest, eof := r.eof }

/-- Function `strings.Index(s, sep)` for a one-byte `sep`: the index of the
first occurrence, or -1. -/
def Index (sep : Byte) : List Byte → Int
  | [] => -1
  | b :: s =>
    if b = sep then 0
    else if Index sep s < 0 then -1 else Index sep s + 1

/-- The table `asciiSpace` of package `strings`: tab, newline, vertical tab,
form feed, carriage return and space. -/
def asciiSpace (c : Byte) : Bool :=
  c = 9 || c = 10 || c = 11 || c = 12 || c = 13 || c = 32

/-- The Unicode-aware functions `strings.TrimSpace` hands over to at the
first non-ASCII byte: `TrimFunc(s, unicode.IsSpace)` and
`TrimRightFunc(s, unicode.IsSpace)`.  They are library code and stay
parameters of the embedding. -/
structure UnicodeTrim where
  trimFunc : List Byte → List Byte
  trimRightFunc : List Byte → List Byte

/-- The second loop of `strings.TrimSpace`, on the reversed string: drops
ASCII space from the end and gives the string back in its order. -/
def trimStop (u : UnicodeTrim) : List Byte → List Byte
  | [] => []
  | c :: r =>
    if 128 ≤ c.toNat then u.trimRightFunc (c :: r).reverse
    else if asciiSpace c then trimStop u r
    else (c :: r).reverse

/-- Function `strings.TrimSpace`: the first loop drops ASCII space from the
start, the second from the end; each hands over to the Unicode-aware
function at a byte of 0x80 or more. -/
def TrimSpace (u : UnicodeTrim) : List Byte → List Byte
  | [] => []
  | c :: s =>
    if 128 ≤ c.toNat then u.trimFunc (c :: s)
    else if asciiSpace c then TrimSpace u s
    else trimStop u (c :: s).reverse

/-- The errors of package `strconv`: `ErrSyntax` and `ErrRange`. -/
inductive NumErr where
  | badSyntax
  | outOfRange
  deriving DecidableEq, Repr

/-- The digit loop of `strconv.ParseUint(s, 10, 32)` with `n` the value so
far.  A byte that is not a decimal digit is a syntax error with value 0 (a
letter has a digit value of 10 or more, which base 10 rejects).  When the
value leaves 32 bits the call returns at once `maxVal = 1<<32 - 1` with a
range error, whatever bytes follow.  `n` is a `uint64`; the cutoff
`maxUint64/10 + 1` guards the multiplication. -/
def parseUintLoop (n : Nat) : List Byte → Nat × Option NumErr
  | [] => (n, none)
  | c :: s =>
    if 48 ≤ c.toNat ∧ c.toNat ≤ 57 then
      if (2 ^ 64 - 1) / 10 + 1 ≤ n then (2 ^ 32 - 1, some NumErr.outOfRange)
      else
        let n10 := (n * 10) % 2 ^ 64
        let n1 := (n10 + (c.toNat - 48)) % 2 ^ 64
        if n1 < n10 ∨ 2 ^ 32 - 1 < n1 then (2 ^ 32 - 1, some NumErr.outOfRange)
        else parseUintLoop n1 s
    else (0, some NumErr.badSyntax)

/-- Function `strconv.ParseUint(s, 10, 32)`. -/
def ParseUint (s : List Byte) : Nat × Option NumErr :=
  if s = [] then (0, some NumErr.badSyntax) else parseUintLoop 0 s

/-- Function `strconv.ParseInt(s, 10, 32)`: an optional sign, then
`ParseUint`.  A syntax error gives 0; a value outside 32 bits gives the
nearest bound, `1<<31 - 1` or `-1<<31`, together with a range error. -/
def ParseInt (s : List Byte) : Int × Option NumErr :=
  match s with
  | [] => (0, some NumErr.badSyntax)
  | c :: t =>
    let neg : Bool := c = 45
    let digits := if c = 43 ∨ c = 45 then t else c :: t
    let un := ParseUint digits
    if un.2 = some NumErr.badSyntax then (0, some NumErr.badSyntax)
    else if neg = false ∧ 2 ^ 31 ≤ un.1 then (2 ^ 31 - 1, some NumErr.outOfRange)
    else if neg = true ∧ 2 ^ 31 < un.1 then (-(2 ^ 31), some NumErr.outOfRange)
    else (if neg then -(un.1 : Int) else (un.1 : Int), none)

/-- The buffer after `data := make([]byte, n)` and `io.ReadFull(rd, data)`:
the next `n` bytes of the input; where the input ends early the buffer keeps
the zero bytes `make` put there. -/
def ReadFull (rd : List Byte) (n : Nat) : List Byte :=
  rd.take n ++ List.replicate (n - rd.length) 0

/-! ## `pumpStdout` -/

/-- How the header loop of `pumpStdout` ends. -/
inductive Headers where
  /-- `ReadString` returned `io.EOF`: `break L`. -/
  | eof
  /-- The loop was left by `break`, with the value of `length` and the
  input left. -/
  | block (length : Int) (rest : List Byte)
  /-- The iteration bound of the embedding was reached. -/
  | outOfFuel
  deriving DecidableEq, Repr

/-- The inner loop of `pumpStdout` ("Read headers from stdout until empty
line"), with `length` the current value of the variable and the first
argument a bound on the iterations. -/
def readHeaders (u : UnicodeTrim) : Nat → Int → List Byte → Headers
  | 0, _, _ => Headers.outOfFuel
  | fuel + 1, length, rd =>
    let r := ReadString 10 rd
    if r.eof then Headers.eof
    else if r.line = [] then Headers.block length r.rest
    else
      let colon := Index 58 r.line
      if colon < 0 then Headers.block length r.rest
      else
        let name := r.line.take colon.toNat
        let value := TrimSpace u (r.line.drop (colon.toNat + 1))
        if name = bytes "Content-Length" then readHeaders u fuel (ParseInt value).1 r.rest
        else readHeaders u fuel length r.rest

/-- One frame as `pumpStdout` decodes it. -/
inductive Frame where
  /-- End of input inside the header block. -/
  | eof
  /-- The call `make([]byte, length)` panics: `length` is negative. -/
  | panicked
  /-- The buffer `data` handed to `ws.WriteMessage`, and the input left. -/
  | payload (data : List Byte) (rest : List Byte)
  /-- The iteration bound of the embedding was reached. -/
  | outOfFuel
  deriving DecidableEq, Repr

/-- The body of the outer loop of `pumpStdout` up to the write: `var length
int64`, the header loop, `make([]byte, length)` and `io.ReadFull(rd, data)`. -/
def readFrame (u : UnicodeTrim) (rd : List Byte) : Frame :=
  match readHeaders u (rd.length + 1) 0 rd with
  | Headers.eof => Frame.eof
  | Headers.outOfFuel => Frame.outOfFuel
  | Headers.block length rest =>
    if length < 0 then Frame.panicked
    else Frame.payload (ReadFull rest length.toNat) (rest.drop length.toNat)

/-- How the outer loop of `pumpStdout` ends. -/
inductive LoopExit where
  /-- By `break L`: end of input. -/
  | eof
  /-- By `break` after a failed `ws.WriteMessage`. -/
  | writeFailed
  /-- Not at all: the goroutine panicked. -/
  | panicked
  /-- The iteration bound of the embedding was reached. -/
  | outOfFuel
  deriving DecidableEq, Repr

/-- The outer loop of `pumpStdout` (label `L`).  `outcomes` says for each
successive `ws.WriteMessage` whether it returned no error (every call after
the listed ones succeeds); the first argument bounds the iterations. -/
def pumpStdoutLoop (u : UnicodeTrim) : Nat → List Byte → List Bool → List Event × LoopExit
  | 0, _, _ => ([], LoopExit.outOfFuel)
  | fuel + 1, rd, outcomes =>
    match readFrame u rd with
    | Frame.eof => ([], LoopExit.eof)
    | Frame.outOfFuel => ([], LoopExit.outOfFuel)
    | Frame.panicked => ([Event.panicMakeslice], LoopExit.panicked)
    | Frame.payload data rest =>
      if outcomes.head?.getD true then
        let r := pumpStdoutLoop u fuel rest outcomes.tail
        (Event.wsWriteMessage data :: r.1, r.2)
      else ([Event.wsWriteMessage data, Event.wsClose], LoopExit.writeFailed)

/-- The outer loop of `pumpStdout` on the whole output `rd` of the
subprocess. -/
def pumpStdoutRun (u : UnicodeTrim) (rd : List Byte) (outcomes : List Bool) :
    List Event × LoopExit :=
  pumpStdoutLoop u (rd.length + 1) rd outcomes

/-- The statements of `pumpStdout` after the loop. -/
def afterLoop : List Event :=
  [Event.closeDone, Event.wsWriteClose, Event.sleepGrace, Event.wsClose]

/-- Function `pumpStdout(ws, r, done)`: the loop and, when the loop is left,
the statements after it. -/
def pumpStdout (u : UnicodeTrim) (rd : List Byte) (outcomes : List Bool) : List Event :=
  let r := pumpStdoutRun u rd outcomes
  match r.2 with
  | LoopExit.eof => r.1 ++ afterLoop
  | LoopExit.writeFailed => r.1 ++ afterLoop
  | LoopExit.panicked => r.1
  | LoopExit.outOfFuel => r.1

/-- A stand-in for the Unicode-aware trimming, for inputs that are ASCII. -/
def asciiOnly : UnicodeTrim := { trimFunc := id, trimRightFunc := id }

/-! ## `serveWs` -/

/-- When the receive `<-done` of `serveWs` can complete: within the second of
the `select`, later, or never (`pumpStdout` did not reach `close(done)`). -/
inductive DoneTiming where
  | beforeTimeout
  | afterTimeout
  | never
  deriving DecidableEq, Repr

/-- What the environment decides in one call of `serveWs`: whether the
upgrade succeeds, the messages the peer sends before it goes away, the
results of the writes to the subprocess input, and when `done` is closed.
`cmd.Start()` is taken to succeed; the source discards its result. -/
structure Session where
  upgradeOk : Bool
  incoming : List (List Byte)
  stdin : List WriteOutcome
  doneAt : DoneTiming
  deriving DecidableEq, Repr

/-- Whether `serveWs` returns or stays in the last `<-done`. -/
inductive Outcome where
  | returned
  | blocked
  deriving DecidableEq, Repr

/-- Function `serveWs`: the effects of its own goroutine in program order.
The deferred `ws.Close()` runs when the function returns. -/
def serveWs (s : Session) : List Event × Outcome :=
  if s.upgradeOk = false then ([Event.logUpgrade], Outcome.returned)
  else
    let ws := Upgrade s.incoming
    let started := [Event.cmdStart, Event.goPumpStdout, Event.goPing]
    let pumped := pumpStdin ws s.stdin
    let stop := [Event.inwClose, Event.signalInterrupt]
    match s.doneAt with
    | DoneTiming.beforeTimeout =>
      (started ++ pumped ++ stop ++ [Event.recvDone] ++ [Event.processWait, Event.wsClose],
        Outcome.returned)
    | DoneTiming.afterTimeout =>
      (started ++ pumped ++ stop ++ [Event.signalKill, Event.recvDone] ++
        [Event.processWait, Event.wsClose], Outcome.returned)
    | DoneTiming.never =>
      (started ++ pumped ++ stop ++ [Event.signalKill], Outcome.blocked)

/-! ## Inputs of the theorems -/

/-- A header line `name:text` ended by a newline; `text` holds everything
between the colon and the newline (the space after the colon and a carriage
return before the newline, when there are any). -/
def headerLine (h : List Byte × List Byte) : List Byte := h.1 ++ 58 :: (h.2 ++ [10])

/-- A header named other than `Content-Length`: the name holds neither colon
nor newline and the text no newline. -/
def OtherHeader (h : List Byte × List Byte) : Prop :=
  (58 : Byte) ∉ h.1 ∧ (10 : Byte) ∉ h.1 ∧ (10 : Byte) ∉ h.2 ∧ h.1 ≠ bytes "Content-Length"

instance : DecidablePred OtherHeader := fun h => by
  unfold OtherHeader
  infer_instance

/-- A header block: the header lines, then a blank line. -/
def headerBlock (hs : List (List Byte × List Byte)) (blank : List Byte) : List Byte :=
  (hs.map headerLine).flatten ++ blank

/-! ## Facts about `%d` and `strconv.ParseInt` -/

theorem fmtDigits_fuel (f1 : Nat) : ∀ (f2 u : Nat) (acc : List Byte), u < f1 → u < f2 →
    fmtDigits f1 u acc = fmtDigits f2 u acc := by
  induction f1 with
  | zero => intro f2 u acc h; omega
  | succ f1 ih =>
    intro f2 u acc h1 h2
    cases f2 with
    | zero => omega
    | succ f2 =>
      simp only [fmtDigits]
      split
      · apply ih <;> omega
      · rfl

theorem fmtDigits_acc (f : Nat) : ∀ (u : Nat) (acc : List Byte), u < f →
    fmtDigits f u acc = fmtDigits f u [] ++ acc := by
  induction f with
  | zero => intro u acc h; omega
  | succ f ih =>
    intro u acc h
    simp only [fmtDigits]
    split
    · rw [ih _ (_ :: acc) (by omega), ih _ [_] (by omega)]
      simp
    · simp

theorem decimal_lt_ten (u : Nat) (h : u < 10) : decimal u = [UInt8.ofNat (48 + u)] := by
  simp [decimal, fmtDigits, h]

theorem decimal_step (u : Nat) (h : 10 ≤ u) :
    decimal u = decimal (u / 10) ++ [UInt8.ofNat (48 + u % 10)] := by
  have e : fmtDigits (u + 1) u [] = fmtDigits u (u / 10) [UInt8.ofNat (48 + u % 10)] := by
    simp only [fmtDigits, h, if_true]
  unfold decimal
  rw [e, fmtDigits_acc u _ _ (by omega)]
  rw [fmtDigits_fuel u (u / 10 + 1) _ _ (by omega) (by omega)]

theorem digit_toNat (d : Nat) (h : d < 10) : (UInt8.ofNat (48 + d)).toNat = 48 + d := by
  simp [UInt8.toNat, UInt8.ofNat, Fin.ofNat]
  omega

/-- Every byte `%d` prints is a decimal digit. -/
theorem decimal_digits (u : Nat) : ∀ b ∈ decimal u, 48 ≤ b.toNat ∧ b.toNat ≤ 57 := by
  induction u using Nat.strong_induction_on with
  | _ u ih =>
    by_cases h : u < 10
    · rw [decimal_lt_ten u h]
      intro b hb
      simp only [List.mem_singleton] at hb
      subst hb
      rw [digit_toNat u h]
      omega
    · rw [decimal_step u (by omega)]
      intro b hb
      rw [List.mem_append] at hb
      rcases hb with hb | hb
      · exact ih (u / 10) (by omega) b hb
      · simp only [List.mem_singleton] at hb
        subst hb
        rw [digit_toNat (u % 10) (by omega)]
        omega

theorem decimal_ne_nil (u : Nat) : decimal u ≠ [] := by
  by_cases h : u < 10
  · rw [decimal_lt_ten u h]; simp
  · rw [decimal_step u (by omega)]; simp

theorem parseUintLoop_append (xs : List Byte) : ∀ (n : Nat) (ys : List Byte),
    (parseUintLoop n xs).2 = none →
    parseUintLoop n (xs ++ ys) = parseUintLoop (parseUintLoop n xs).1 ys := by
  induction xs with
  | nil => intro n ys _; simp [parseUintLoop]
  | cons c xs ih =>
    intro n ys h
    simp only [List.cons_append, parseUintLoop] at h ⊢
    split_ifs at h ⊢
    exact ih _ ys h

theorem parseUintLoop_decimal (u : Nat) : u < 2 ^ 32 →
    parseUintLoop 0 (decimal u) = (u, none) := by
  induction u using Nat.strong_induction_on with
  | _ u ih =>
    intro hu
    by_cases h : u < 10
    · rw [decimal_lt_ten u h]
      simp only [parseUintLoop, digit_toNat u h]
      have h1 : ¬ ((2 ^ 64 - 1) / 10 + 1 ≤ 0) := by norm_num
      have h3 : (0 * 10) % 2 ^ 64 + (48 + u - 48) = u := by omega
      have h4 : u % 2 ^ 64 = u := Nat.mod_eq_of_lt (by norm_num; omega)
      have h5 : ¬ (u < (0 * 10) % 2 ^ 64 ∨ 2 ^ 32 - 1 < u) := by omega
      have h6 : 48 ≤ 48 + u ∧ 48 + u ≤ 57 := by omega
      simp only [h6, and_self, if_true, h1, if_false, h3, h4, h5]
    · have hq := ih (u / 10) (by omega) (by omega)
      rw [decimal_step u (by omega), parseUintLoop_append _ _ _ (by rw [hq]), hq]
      simp only [parseUintLoop, digit_toNat (u % 10) (by omega)]
      have h1 : ¬ ((2 ^ 64 - 1) / 10 + 1 ≤ u / 10) := by norm_num; omega
      have h2 : (u / 10 * 10) % 2 ^ 64 = u / 10 * 10 := Nat.mod_eq_of_lt (by norm_num; omega)
      have h3 : (u / 10 * 10 + (48 + u % 10 - 48)) = u := by omega
      have h4 : u % 2 ^ 64 = u := Nat.mod_eq_of_lt (by norm_num; omega)
      have h5 : ¬ (u < u / 10 * 10 ∨ 2 ^ 32 - 1 < u) := by omega
      have h6 : 48 ≤ 48 + u % 10 ∧ 48 + u % 10 ≤ 57 := by omega
      simp only [h6, and_self, if_true, h1, if_false, h2, h3, h4, h5]

/-- Parsing what `%d` printed gives the number back, below `1<<31`. -/
theorem ParseInt_decimal (u : Nat) (hu : u < 2 ^ 31) :
    ParseInt (decimal u) = ((u : Int), none) := by
  have hd := decimal_digits u
  have hp := parseUintLoop_decimal u (by omega)
  cases hl : decimal u with
  | nil => exact absurd hl (decimal_ne_nil u)
  | cons c t =>
    rw [hl] at hd hp
    have hc := hd c (by simp)
    have h43 : c ≠ 43 := by
      intro h; subst h; revert hc; decide
    have h45 : c ≠ 45 := by
      intro h; subst h; revert hc; decide
    simp only [ParseInt, ParseUint, h43, h45, or_self, if_false, decide_False, hp]
    simp
    omega

/-! ## Facts about the library calls of `pumpStdout` -/

theorem ReadString_append (d : Byte) (l : List Byte) : ∀ (rest : List Byte), d ∉ l →
    ReadString d (l ++ d :: rest) = { line := l ++ [d], rest := rest, eof := false } := by
  induction l with
  | nil => intro rest _; simp [ReadString]
  | cons b l ih =>
    intro rest h
    have hb : b ≠ d := fun e => h (by simp [e])
    have hl : d ∉ l := fun e => h (by simp [e])
    simp [ReadString, hb, ih rest hl]

theorem ReadString_rest_lt (d : Byte) (rd : List Byte) :
    (ReadString d rd).eof = false → (ReadString d rd).rest.length < rd.length := by
  induction rd with
  | nil => simp [ReadString]
  | cons b s ih =>
    simp only [ReadString]
    split
    · simp
    · intro h
      have := ih h
      simp only [List.length_cons]
      omega

theorem Index_neg_one (c : Byte) (l : List Byte) : c ∉ l → Index c l = -1 := by
  induction l with
  | nil => intro _; rfl
  | cons b l ih =>
    intro h
    have hb : b ≠ c := fun e => h (by simp [e])
    have hl : c ∉ l := fun e => h (by simp [e])
    simp [Index, hb, ih hl]

theorem Index_append (c : Byte) (pre : List Byte) : ∀ (post : List Byte), c ∉ pre →
    Index c (pre ++ c :: post) = (pre.length : Int) := by
  induction pre with
  | nil => intro post _; simp [Index]
  | cons b pre ih =>
    intro post h
    have hb : b ≠ c := fun e => h (by simp [e])
    have hl : c ∉ pre := fun e => h (by simp [e])
    have e := ih post hl
    rw [List.cons_append]
    simp only [Index, hb, if_false]
    rw [e, List.length_cons]
    split_ifs <;> omega

/-- A decimal digit is neither ASCII space nor a byte of 0x80 or more. -/
theorem digit_plain (c : Byte) (h : 48 ≤ c.toNat ∧ c.toNat ≤ 57) :
    ¬ (128 ≤ c.toNat) ∧ asciiSpace c = false := by
  refine ⟨by omega, ?_⟩
  have e : ∀ k : Nat, k < 48 → c ≠ UInt8.ofNat k := by
    intro k hk hc
    rw [hc] at h
    simp [UInt8.toNat, UInt8.ofNat, Fin.ofNat] at h
    omega
  have h9 := e 9 (by omega)
  have h10 := e 10 (by omega)
  have h11 := e 11 (by omega)
  have h12 := e 12 (by omega)
  have h13 := e 13 (by omega)
  have h32 := e 32 (by omega)
  simp only [asciiSpace, Bool.or_eq_false_iff, decide_eq_false_iff_not]
  exact ⟨⟨⟨⟨⟨h9, h10⟩, h11⟩, h12⟩, h13⟩, h32⟩

theorem trimStop_plain (u : UnicodeTrim) (c : Byte) (r : List Byte)
    (h : ¬ (128 ≤ c.toNat) ∧ asciiSpace c = false) : trimStop u (c :: r) = (c :: r).reverse := by
  simp [trimStop, h.1, h.2]

/-- What `strings.TrimSpace` leaves of the text ` <value>\r\n` after the colon
of a header line, for a value of ASCII bytes that are not space. -/
theorem TrimSpace_plain (u : UnicodeTrim) (ds : List Byte) (hne : ds ≠ [])
    (hd : ∀ b ∈ ds, ¬ (128 ≤ b.toNat) ∧ asciiSpace b = false) :
    TrimSpace u (32 :: (ds ++ [13, 10])) = ds := by
  have h32 : TrimSpace u (32 :: (ds ++ [13, 10])) = TrimSpace u (ds ++ [13, 10]) := by
    simp [TrimSpace, asciiSpace, UInt8.size]
  rw [h32]
  cases ds with
  | nil => exact absurd rfl hne
  | cons c t =>
    have hp := hd c (by simp)
    have e1 : TrimSpace u (c :: t ++ [13, 10]) = trimStop u (c :: t ++ [13, 10]).reverse := by
      simp [TrimSpace, hp.1, hp.2]
    have e2 : (c :: t ++ [13, 10]).reverse = 10 :: 13 :: (c :: t).reverse := by simp
    have e3 : trimStop u (10 :: 13 :: (c :: t).reverse) = trimStop u (c :: t).reverse := by
      simp [trimStop, asciiSpace, UInt8.size]
    rw [e1, e2, e3]
    cases hr : (c :: t).reverse with
    | nil => simp at hr
    | cons d r =>
      have hmem : d ∈ c :: t := by
        have : d ∈ (c :: t).reverse := by rw [hr]; simp
        exact List.mem_reverse.mp this
      rw [trimStop_plain u d r (hd d hmem), ← hr, List.reverse_reverse]

theorem TrimSpace_value (u : UnicodeTrim) (ds : List Byte) (hne : ds ≠ [])
    (hd : ∀ b ∈ ds, 48 ≤ b.toNat ∧ b.toNat ≤ 57) :
    TrimSpace u (32 :: (ds ++ [13, 10])) = ds :=
  TrimSpace_plain u ds hne (fun b hb => digit_plain b (hd b hb))

theorem ReadFull_exact (data rest : List Byte) :
    ReadFull (data ++ rest) data.length = data ∧ (data ++ rest).drop data.length = rest := by
  simp [ReadFull]

/-! ## One iteration of the header loop -/

/-- A line without a colon (a blank line among them) ends the header loop. -/
theorem readHeaders_noColon (u : UnicodeTrim) (f : Nat) (len : Int) (line rest : List Byte)
    (hc : (58 : Byte) ∉ line) (hn : (10 : Byte) ∉ line) :
    readHeaders u (f + 1) len (line ++ 10 :: rest) = Headers.block len rest := by
  have hr := ReadString_append 10 line rest hn
  have hc2 : (58 : Byte) ∉ line ++ [10] := by
    intro h
    rcases List.mem_append.mp h with h | h
    · exact hc h
    · revert h; decide
  have hi := Index_neg_one 58 (line ++ [10]) hc2
  simp only [readHeaders, hr, hi]
  simp

/-- A line `name:text` is a header: `Content-Length` sets `length` to what
`strconv.ParseInt` returns for the trimmed text, any other name is skipped. -/
theorem readHeaders_header (u : UnicodeTrim) (f : Nat) (len : Int) (name text rest : List Byte)
    (hc : (58 : Byte) ∉ name) (hn : (10 : Byte) ∉ name) (ht : (10 : Byte) ∉ text) :
    readHeaders u (f + 1) len (name ++ 58 :: (text ++ 10 :: rest)) =
      if name = bytes "Content-Length" then
        readHeaders u f (ParseInt (TrimSpace u (text ++ [10]))).1 rest
      else readHeaders u f len rest := by
  have hn2 : (10 : Byte) ∉ name ++ 58 :: text := by
    intro h
    rcases List.mem_append.mp h with h | h
    · exact hn h
    · rcases List.mem_cons.mp h with h | h
      · revert h; decide
      · exact ht h
  have e : name ++ 58 :: (text ++ 10 :: rest) = (name ++ 58 :: text) ++ 10 :: rest := by simp
  have hr := ReadString_append 10 (name ++ 58 :: text) rest hn2
  have e2 : (name ++ 58 :: text) ++ [10] = name ++ 58 :: (text ++ [10]) := by simp
  have hi := Index_append 58 name (text ++ [10]) hc
  rw [e]
  simp only [readHeaders, hr]
  rw [e2, hi]
  have h0 : ¬ ((name.length : Int) < 0) := by omega
  simp only [Bool.false_eq_true, if_false, h0, Int.toNat_ofNat]
  have e3 : List.take name.length (name ++ 58 :: (text ++ [10])) = name := by simp
  have e4 : List.drop (name.length + 1) (name ++ 58 :: (text ++ [10])) = text ++ [10] := by
    rw [← List.drop_drop]
    simp
  rw [e3, e4]
  simp

theorem bytes_contentLength :
    bytes "Content-Length: " = bytes "Content-Length" ++ [58, 32] := by decide

/-- The header loop on `Content-Length: <n>\r\n\r\n`: it ends at the blank
line with `length = n`. -/
theorem readHeaders_contentLength (u : UnicodeTrim) (f : Nat) (len : Int) (n : Nat)
    (rest : List Byte) (hn : n < 2 ^ 31) :
    readHeaders u (f + 2) len
      (bytes "Content-Length: " ++ decimal n ++ [13, 10, 13, 10] ++ rest) =
      Headers.block (n : Int) rest := by
  have hd := decimal_digits n
  have h10 : (10 : Byte) ∉ 32 :: (decimal n ++ [13]) := by
    intro h
    rcases List.mem_cons.mp h with h | h
    · revert h; decide
    · rcases List.mem_append.mp h with h | h
      · have := hd _ h
        revert this; decide
      · revert h; decide
  have e : bytes "Content-Length: " ++ decimal n ++ [13, 10, 13, 10] ++ rest =
      bytes "Content-Length" ++ 58 :: ((32 :: (decimal n ++ [13])) ++ 10 :: ([13] ++ 10 :: rest)) := by
    rw [bytes_contentLength]; simp
  rw [e, readHeaders_header u (f + 1) len _ _ _ (by decide) (by decide) h10]
  have e2 : 32 :: (decimal n ++ [13]) ++ [10] = 32 :: (decimal n ++ [13, 10]) := by simp
  rw [if_pos rfl, e2, TrimSpace_value u (decimal n) (decimal_ne_nil n) hd, ParseInt_decimal n hn]
  exact readHeaders_noColon u f _ [13] rest (by decide) (by decide)

/-! ## Termination of the loops -/

/-- The header loop consumes input: what it leaves is shorter than what it
was given. -/
theorem readHeaders_rest_lt (u : UnicodeTrim) (f : Nat) : ∀ (len : Int) (rd : List Byte)
    (l : Int) (rest : List Byte),
    readHeaders u f len rd = Headers.block l rest → rest.length < rd.length := by
  induction f with
  | zero => intro len rd l rest h; simp [readHeaders] at h
  | succ f ih =>
    intro len rd l rest h
    simp only [readHeaders] at h
    have hlt := ReadString_rest_lt 10 rd
    split_ifs at h with h1 h2 h3 h4
    · simp only [Headers.block.injEq] at h
      rw [← h.2]
      exact hlt (by simpa using h1)
    · simp only [Headers.block.injEq] at h
      rw [← h.2]
      exact hlt (by simpa using h1)
    · have := ih _ _ _ _ h
      have := hlt (by simpa using h1)
      omega
    · have := ih _ _ _ _ h
      have := hlt (by simpa using h1)
      omega

/-- With a bound above the length of the input the header loop ends by
itself. -/
theorem readHeaders_total (u : UnicodeTrim) (f : Nat) : ∀ (len : Int) (rd : List Byte),
    rd.length < f → readHeaders u f len rd ≠ Headers.outOfFuel := by
  induction f with
  | zero => intro len rd h; omega
  | succ f ih =>
    intro len rd h
    simp only [readHeaders]
    have hlt := ReadString_rest_lt 10 rd
    split_ifs with h1 h2 h3 h4
    · simp
    · simp
    · simp
    · exact ih _ _ (by have := hlt (by simpa using h1); omega)
    · exact ih _ _ (by have := hlt (by simpa using h1); omega)

theorem readFrame_rest_lt (u : UnicodeTrim) (rd data rest : List Byte)
    (h : readFrame u rd = Frame.payload data rest) : rest.length < rd.length := by
  unfold readFrame at h
  split at h
  · simp at h
  · simp at h
  · rename_i l r hh
    have := readHeaders_rest_lt u _ _ _ _ _ hh
    split_ifs at h
    simp only [Frame.payload.injEq] at h
    rw [← h.2, List.length_drop]
    omega

theorem readFrame_ne_outOfFuel (u : UnicodeTrim) (rd : List Byte) :
    readFrame u rd ≠ Frame.outOfFuel := by
  unfold readFrame
  split
  · simp
  · rename_i hh
    exact absurd hh (readHeaders_total u _ _ _ (by omega))
  · split_ifs <;> simp

/-- The outer loop does not depend on the bound once the bound is above the
length of the input. -/
theorem pumpStdoutLoop_fuel (u : UnicodeTrim) (f1 : Nat) : ∀ (f2 : Nat) (rd : List Byte)
    (os : List Bool), rd.length < f1 → rd.length < f2 →
    pumpStdoutLoop u f1 rd os = pumpStdoutLoop u f2 rd os := by
  induction f1 with
  | zero => intro f2 rd os h; omega
  | succ f1 ih =>
    intro f2 rd os h1 h2
    cases f2 with
    | zero => omega
    | succ f2 =>
      simp only [pumpStdoutLoop]
      cases hf : readFrame u rd with
      | eof => rfl
      | panicked => rfl
      | outOfFuel => rfl
      | payload data rest =>
        have hlt := readFrame_rest_lt u rd data rest hf
        simp only
        rw [ih f2 rest os.tail (by omega) (by omega)]

/-- With a bound above the length of the input the outer loop ends by
itself: at end of input, at a failed write, or in a panic. -/
theorem pumpStdoutLoop_total (u : UnicodeTrim) (f : Nat) : ∀ (rd : List Byte) (os : List Bool),
    rd.length < f → (pumpStdoutLoop u f rd os).2 ≠ LoopExit.outOfFuel := by
  induction f with
  | zero => intro rd os h; omega
  | succ f ih =>
    intro rd os h
    simp only [pumpStdoutLoop]
    cases hf : readFrame u rd with
    | eof => simp
    | panicked => simp
    | outOfFuel => exact absurd hf (readFrame_ne_outOfFuel u rd)
    | payload data rest =>
      have hlt := readFrame_rest_lt u rd data rest hf
      simp only
      split_ifs
      · exact ih rest os.tail (by omega)
      · simp

/-- One round of the outer loop whose write succeeds: the payload is written
and the pump goes on with the input left. -/
theorem pumpStdout_step (u : UnicodeTrim) (rd data rest : List Byte) (os : List Bool)
    (hf : readFrame u rd = Frame.payload data rest) (hw : os.head?.getD true = true) :
    pumpStdout u rd os = Event.wsWriteMessage data :: pumpStdout u rest os.tail := by
  have hlt := readFrame_rest_lt u rd data rest hf
  have e : pumpStdoutRun u rd os =
      (Event.wsWriteMessage data :: (pumpStdoutRun u rest os.tail).1,
        (pumpStdoutRun u rest os.tail).2) := by
    unfold pumpStdoutRun
    rw [pumpStdoutLoop]
    simp only [hf, hw, if_true]
    rw [pumpStdoutLoop_fuel u rd.length (rest.length + 1) rest os.tail (by omega) (by omega)]
  unfold pumpStdout
  rw [e]
  generalize pumpStdoutRun u rest os.tail = r
  obtain ⟨t, x⟩ := r
  cases x <;> rfl

/-- One round of the outer loop whose write fails: the connection is closed
and the loop is left. -/
theorem pumpStdout_writeFailed (u : UnicodeTrim) (rd data rest : List Byte) (os : List Bool)
    (hf : readFrame u rd = Frame.payload data rest) (hw : os.head?.getD true = false) :
    pumpStdout u rd os = [Event.wsWriteMessage data, Event.wsClose] ++ afterLoop := by
  simp [pumpStdout, pumpStdoutRun, pumpStdoutLoop, hf, hw]

/-! ## Decoding one frame -/

theorem readFrame_nil (u : UnicodeTrim) : readFrame u [] = Frame.eof := by
  simp [readFrame, readHeaders, ReadString]

theorem pumpStdout_nil (u : UnicodeTrim) (os : List Bool) : pumpStdout u [] os = afterLoop := by
  simp [pumpStdout, pumpStdoutRun, pumpStdoutLoop, readFrame_nil]

/-- The frame decoded after a header block `Content-Length: <n>\r\n\r\n`, for
any input after it. -/
theorem readFrame_contentLength (u : UnicodeTrim) (n : Nat) (rest : List Byte)
    (hn : n < 2 ^ 31) :
    readFrame u (bytes "Content-Length: " ++ decimal n ++ [13, 10, 13, 10] ++ rest) =
      Frame.payload (ReadFull rest n) (rest.drop n) := by
  obtain ⟨f, hf⟩ : ∃ f,
      (bytes "Content-Length: " ++ decimal n ++ [13, 10, 13, 10] ++ rest).length + 1 = f + 2 :=
    ⟨(bytes "Content-Length: " ++ decimal n ++ [13, 10, 13, 10] ++ rest).length - 1, by
      simp only [List.length_append, List.length_cons, List.length_nil]; omega⟩
  unfold readFrame
  rw [hf, readHeaders_contentLength u f 0 n rest hn]
  simp

/-- The header loop on a block of headers named other than `Content-Length`:
`length` keeps its value. -/
theorem readHeaders_otherHeaders (u : UnicodeTrim) (hs : List (List Byte × List Byte)) :
    ∀ (f : Nat) (len : Int) (blank rest : List Byte), (∀ h ∈ hs, OtherHeader h) →
    (blank = [13, 10] ∨ blank = [10]) → hs.length < f →
    readHeaders u f len (headerBlock hs blank ++ rest) = Headers.block len rest := by
  induction hs with
  | nil =>
    intro f len blank rest _ hb hf
    obtain ⟨g, rfl⟩ : ∃ g, f = g + 1 := ⟨f - 1, by simp at hf; omega⟩
    rcases hb with rfl | rfl
    · exact readHeaders_noColon u g len [13] rest (by decide) (by decide)
    · exact readHeaders_noColon u g len [] rest (by decide) (by decide)
  | cons h hs ih =>
    intro f len blank rest hall hb hf
    obtain ⟨g, rfl⟩ : ∃ g, f = g + 1 := ⟨f - 1, by simp at hf; omega⟩
    have hh : OtherHeader h := hall h (by simp)
    have e : headerBlock (h :: hs) blank ++ rest =
        h.1 ++ 58 :: (h.2 ++ 10 :: (headerBlock hs blank ++ rest)) := by
      simp [headerBlock, headerLine]
    rw [e, readHeaders_header u g len h.1 h.2 _ hh.1 hh.2.1 hh.2.2.1, if_neg hh.2.2.2]
    exact ih g len blank rest (fun x hx => hall x (by simp [hx])) hb (by simp at hf; omega)

theorem headerBlock_length (hs : List (List Byte × List Byte)) (blank : List Byte) :
    hs.length ≤ (headerBlock hs blank).length := by
  induction hs with
  | nil => simp
  | cons h hs ih =>
    simp only [headerBlock, List.map_cons, List.flatten_cons, List.length_append,
      List.length_cons, headerLine] at ih ⊢
    omega

/-- The loop of `pumpStdout` writes payloads and closes the connection; it
does not touch the `done` channel. -/
theorem pumpStdoutLoop_events (u : UnicodeTrim) (f : Nat) : ∀ (rd : List Byte) (os : List Bool),
    ∀ e ∈ (pumpStdoutLoop u f rd os).1,
      (∃ data, e = Event.wsWriteMessage data) ∨ e = Event.wsClose ∨ e = Event.panicMakeslice := by
  induction f with
  | zero => intro rd os e he; simp [pumpStdoutLoop] at he
  | succ f ih =>
    intro rd os e he
    simp only [pumpStdoutLoop] at he
    cases hf : readFrame u rd with
    | eof => simp [hf] at he
    | outOfFuel => simp [hf] at he
    | panicked =>
      simp only [hf, List.mem_singleton] at he
      exact Or.inr (Or.inr he)
    | payload data rest =>
      simp only [hf] at he
      split_ifs at he
      · rcases List.mem_cons.mp he with h | h
        · exact Or.inl ⟨data, h⟩
        · exact ih rest os.tail e h
      · rcases List.mem_cons.mp he with h | h
        · exact Or.inl ⟨data, h⟩
        · simp only [List.mem_singleton] at h
          exact Or.inr (Or.inl h)

theorem stdinBytes_append (a b : List Event) : stdinBytes (a ++ b) = stdinBytes a ++ stdinBytes b := by
  induction a with
  | nil => rfl
  | cons e a ih => cases e <;> simp [stdinBytes, ih]

theorem pumpStdinLoop_ok (m : List Byte) (ms : List (List Byte)) :
    pumpStdinLoop 0 (m :: ms) [] =
      Event.stdinWrite (bytes "Content-Length: " ++ decimal (m.length + 2) ++ [13, 10, 13, 10]) ::
        Event.stdinWrite (m ++ [13, 10]) :: pumpStdinLoop 0 ms [] := by
  simp [pumpStdinLoop, nextWrite]

/-! ## The inbound pump -/

/-- The bytes `pumpStdin` delivers when every write succeeds: the frames of
the messages, in order. -/
theorem stdinBytes_pumpStdin (ms : List (List Byte)) :
    stdinBytes (pumpStdin (Upgrade ms) []) =
      (ms.map (fun m => bytes "Content-Length: " ++ decimal (m.length + 2) ++
        bytes "\r\n\r\n" ++ m ++ bytes "\r\n")).flatten := by
  have h4 : bytes "\r\n\r\n" = [13, 10, 13, 10] := by decide
  have h2 : bytes "\r\n" = [13, 10] := by decide
  simp only [pumpStdin, Upgrade, stdinBytes_append, h4, h2]
  induction ms with
  | nil => simp [pumpStdinLoop, stdinBytes]
  | cons m ms ih =>
    rw [pumpStdinLoop_ok]
    simp only [stdinBytes, List.append_nil, List.map_cons, List.flatten_cons] at ih ⊢
    rw [ih]
    simp

/-- The digits `%d` prints are the base-10 digits of the number, most
significant first. -/
theorem decimal_value (u : Nat) :
    (decimal u).foldl (fun a b => 10 * a + (b.toNat - 48)) 0 = u := by
  induction u using Nat.strong_induction_on with
  | _ u ih =>
    by_cases h : u < 10
    · rw [decimal_lt_ten u h]
      simp only [List.foldl_cons, List.foldl_nil, digit_toNat u h]
      omega
    · rw [decimal_step u (by omega), List.foldl_append, ih (u / 10) (by omega)]
      simp only [List.foldl_cons, List.foldl_nil, digit_toNat (u % 10) (by omega)]
      omega

/-- No leading zero: the first digit `%d` prints for a number other than 0
is not `0`. -/
theorem decimal_head (u : Nat) : u ≠ 0 → (decimal u).head? ≠ some 48 := by
  induction u using Nat.strong_induction_on with
  | _ u ih =>
    intro hu
    by_cases h : u < 10
    · rw [decimal_lt_ten u h]
      simp only [List.head?_cons, ne_eq, Option.some.injEq]
      intro e
      have := congrArg UInt8.toNat e
      rw [digit_toNat u h] at this
      have h48 : (48 : UInt8).toNat = 48 := rfl
      omega
    · rw [decimal_step u (by omega)]
      have hq := ih (u / 10) (by omega) (by omega)
      cases hl : decimal (u / 10) with
      | nil => exact absurd hl (decimal_ne_nil _)
      | cons c t =>
        rw [hl] at hq
        simpa using hq

/-- C1: for every sequence of messages read from the transport, with the
writes to the subprocess input succeeding, `pumpStdin` writes for each
message `m`, in order, exactly the bytes `Content-Length: `, the decimal
rendering of `len(m)+2`, `\r\n\r\n`, `m` and `\r\n`; the message `{"id":1}`
yields `Content-Length: 10\r\n\r\n{"id":1}\r\n`.  The decimal rendering of
`n` is made of base-10 digits with value `n` and has no leading zero. -/
theorem pumpStdin_writes_frames :
    (∀ ms : List (List Byte),
      stdinBytes (pumpStdin (Upgrade ms) []) =
        (ms.map (fun m => bytes "Content-Length: " ++ decimal (m.length + 2) ++
          bytes "\r\n\r\n" ++ m ++ bytes "\r\n")).flatten) ∧
    stdinBytes (pumpStdin (Upgrade [bytes "\x7b\"id\":1\x7d"]) []) =
      bytes "Content-Length: 10\r\n\r\n\x7b\"id\":1\x7d\r\n" ∧
    (∀ n : Nat, (∀ b ∈ decimal n, 48 ≤ b.toNat ∧ b.toNat ≤ 57) ∧
      (decimal n).foldl (fun a b => 10 * a + (b.toNat - 48)) 0 = n ∧
      (n ≠ 0 → (decimal n).head? ≠ some 48)) :=
  ⟨stdinBytes_pumpStdin, by decide,
    fun n => ⟨decimal_digits n, decimal_value n, decimal_head n⟩⟩

/-- C9, as the code behaves: a message of 8193 bytes, one more than
`maxMessageSize`, is read from the connection `Upgrade` returned and is
framed and written to the subprocess input like any other. -/
theorem pumpStdin_forwards_oversized :
    maxMessageSize < (List.replicate 8193 (97 : Byte)).length ∧
    pumpStdin (Upgrade [List.replicate 8193 97]) [] =
      [Event.stdinWrite (bytes "Content-Length: 8195\r\n\r\n"),
        Event.stdinWrite (List.replicate 8193 97 ++ bytes "\r\n"), Event.wsClose] := by
  refine ⟨by rw [List.length_replicate]; decide, ?_⟩
  have hd : bytes "Content-Length: 8195\r\n\r\n" =
      bytes "Content-Length: " ++ decimal (8193 + 2) ++ [13, 10, 13, 10] := by decide
  have h2 : bytes "\r\n" = [13, 10] := by decide
  rw [hd, h2]
  simp only [pumpStdin, Upgrade]
  rw [pumpStdinLoop_ok, List.length_replicate]
  rfl

/-! ## The outbound pump: frames -/

/-- C3: for `n < 2^31`, a payload `D` of `n` bytes and any bytes `R` after
it, decoding `Content-Length: n\r\n\r\n` followed by `D` and `R` gives the
payload `D` and leaves the input at `R`; `pumpStdout` writes `D` as the
transport message and, when the write succeeds, goes on with `R`. -/
theorem pumpStdout_contentLength (u : UnicodeTrim) (n : Nat) (D R : List Byte) (os : List Bool)
    (hn : n < 2 ^ 31) (hD : D.length = n) :
    readFrame u (bytes "Content-Length: " ++ decimal n ++ bytes "\r\n\r\n" ++ D ++ R) =
      Frame.payload D R ∧
    pumpStdout u (bytes "Content-Length: " ++ decimal n ++ bytes "\r\n\r\n" ++ D ++ R) os =
      if os.head?.getD true = true then Event.wsWriteMessage D :: pumpStdout u R os.tail
      else [Event.wsWriteMessage D, Event.wsClose] ++ afterLoop := by
  have h4 : bytes "\r\n\r\n" = [13, 10, 13, 10] := by decide
  have hx := ReadFull_exact D R
  have hf : readFrame u (bytes "Content-Length: " ++ decimal n ++ bytes "\r\n\r\n" ++ D ++ R) =
      Frame.payload D R := by
    rw [h4, List.append_assoc _ D R, readFrame_contentLength u n (D ++ R) hn, ← hD, hx.1, hx.2]
  refine ⟨hf, ?_⟩
  split_ifs with hw
  · exact pumpStdout_step u _ D R os hf hw
  · exact pumpStdout_writeFailed u _ D R os hf (by simpa using hw)

/-- Witness for C3: `Content-Length: 4\r\n\r\npong` delivers `pong`, and
`Content-Length: 5` with five payload bytes delivers those five bytes and
stops before the bytes after them. -/
theorem pumpStdout_contentLength_witness :
    (4 < 2 ^ 31 ∧ (bytes "pong").length = 4) ∧
    (readFrame asciiOnly (bytes "Content-Length: " ++ decimal 4 ++ bytes "\r\n\r\n" ++
        bytes "pong" ++ []) = Frame.payload (bytes "pong") [] ∧
      pumpStdout asciiOnly (bytes "Content-Length: " ++ decimal 4 ++ bytes "\r\n\r\n" ++
        bytes "pong" ++ []) [] =
        if ([] : List Bool).head?.getD true = true then
          Event.wsWriteMessage (bytes "pong") :: pumpStdout asciiOnly [] ([] : List Bool).tail
        else [Event.wsWriteMessage (bytes "pong"), Event.wsClose] ++ afterLoop) ∧
    bytes "Content-Length: " ++ decimal 4 ++ bytes "\r\n\r\n" ++ bytes "pong" ++ [] =
      bytes "Content-Length: 4\r\n\r\npong" ∧
    pumpStdout asciiOnly (bytes "Content-Length: 4\r\n\r\npong") [] =
      Event.wsWriteMessage (bytes "pong") :: afterLoop ∧
    readFrame asciiOnly (bytes "Content-Length: 5\r\n\r\nhelloContent-Length: 1\r\n\r\nx") =
      Frame.payload (bytes "hello") (bytes "Content-Length: 1\r\n\r\nx") :=
  ⟨⟨by decide, by decide⟩,
    pumpStdout_contentLength asciiOnly 4 (bytes "pong") [] [] (by decide) (by decide),
    by decide, by decide, by decide⟩

/-- C2: for every payload `P` with `len(P)+2 < 2^31`, the bytes `pumpStdin`
writes for `P` decode in `pumpStdout` to exactly one frame, whose payload is
`P` followed by `\r\n`; after it the input is at its end, where decoding
gives end-of-stream.  `pumpStdout` writes that one message and leaves its
loop. -/
theorem roundTrip (u : UnicodeTrim) (P : List Byte) (os : List Bool)
    (hP : P.length + 2 < 2 ^ 31) :
    readFrame u (stdinBytes (pumpStdin (Upgrade [P]) [])) =
      Frame.payload (P ++ bytes "\r\n") [] ∧
    readFrame u [] = Frame.eof ∧
    (P ++ bytes "\r\n").take P.length = P ∧
    pumpStdout u (stdinBytes (pumpStdin (Upgrade [P]) [])) os =
      if os.head?.getD true = true then Event.wsWriteMessage (P ++ bytes "\r\n") :: afterLoop
      else [Event.wsWriteMessage (P ++ bytes "\r\n"), Event.wsClose] ++ afterLoop := by
  have h4 : bytes "\r\n\r\n" = [13, 10, 13, 10] := by decide
  have h2 : bytes "\r\n" = [13, 10] := by decide
  have e : stdinBytes (pumpStdin (Upgrade [P]) []) =
      bytes "Content-Length: " ++ decimal (P.length + 2) ++ bytes "\r\n\r\n" ++
        (P ++ bytes "\r\n") ++ [] := by
    have := stdinBytes_pumpStdin [P]
    simpa using this
  have hx := ReadFull_exact (P ++ [13, 10]) []
  have hlen : (P ++ [13, 10]).length = P.length + 2 := by simp
  have hf : readFrame u (stdinBytes (pumpStdin (Upgrade [P]) [])) =
      Frame.payload (P ++ bytes "\r\n") [] := by
    rw [e, h4, h2, List.append_assoc _ (P ++ [13, 10]) [],
      readFrame_contentLength u (P.length + 2) (P ++ [13, 10] ++ []) hP, ← hlen, hx.1, hx.2]
  refine ⟨hf, readFrame_nil u, by simp, ?_⟩
  split_ifs with hw
  · rw [pumpStdout_step u _ _ [] os hf hw, pumpStdout_nil]
  · exact pumpStdout_writeFailed u _ _ [] os hf (by simpa using hw)

/-- Witness for C2: the payload `{"id":1}`. -/
theorem roundTrip_witness :
    (bytes "\x7b\"id\":1\x7d").length + 2 < 2 ^ 31 ∧
    (readFrame asciiOnly (stdinBytes (pumpStdin (Upgrade [bytes "\x7b\"id\":1\x7d"]) [])) =
      Frame.payload (bytes "\x7b\"id\":1\x7d" ++ bytes "\r\n") [] ∧
    readFrame asciiOnly [] = Frame.eof ∧
    (bytes "\x7b\"id\":1\x7d" ++ bytes "\r\n").take (bytes "\x7b\"id\":1\x7d").length =
      bytes "\x7b\"id\":1\x7d" ∧
    pumpStdout asciiOnly (stdinBytes (pumpStdin (Upgrade [bytes "\x7b\"id\":1\x7d"]) [])) [] =
      if ([] : List Bool).head?.getD true = true then
        Event.wsWriteMessage (bytes "\x7b\"id\":1\x7d" ++ bytes "\r\n") :: afterLoop
      else [Event.wsWriteMessage (bytes "\x7b\"id\":1\x7d" ++ bytes "\r\n"), Event.wsClose] ++
        afterLoop) :=
  ⟨by decide, roundTrip asciiOnly (bytes "\x7b\"id\":1\x7d") [] (by decide)⟩

/-! ## The outbound pump: the value of `Content-Length` -/

theorem plain_ne_newline (v : List Byte)
    (hv : ∀ b ∈ v, ¬ (128 ≤ b.toNat) ∧ asciiSpace b = false) : (10 : Byte) ∉ v := by
  intro h
  have := (hv 10 h).2
  revert this
  decide

/-- The frame decoded after `Content-Length: <v>\r\n\r\n` for a value `v` of
ASCII bytes that are not space: `length` is whatever `strconv.ParseInt`
returns for `v`, its error being discarded. -/
theorem readFrame_value (u : UnicodeTrim) (v rest : List Byte) (hne : v ≠ [])
    (hv : ∀ b ∈ v, ¬ (128 ≤ b.toNat) ∧ asciiSpace b = false) :
    readFrame u (bytes "Content-Length: " ++ v ++ [13, 10, 13, 10] ++ rest) =
      if (ParseInt v).1 < 0 then Frame.panicked
      else Frame.payload (ReadFull rest (ParseInt v).1.toNat) (rest.drop (ParseInt v).1.toNat) := by
  have h10 : (10 : Byte) ∉ 32 :: (v ++ [13]) := by
    intro h
    rcases List.mem_cons.mp h with h | h
    · revert h; decide
    · rcases List.mem_append.mp h with h | h
      · exact plain_ne_newline v hv h
      · revert h; decide
  have e : bytes "Content-Length: " ++ v ++ [13, 10, 13, 10] ++ rest =
      bytes "Content-Length" ++ 58 :: ((32 :: (v ++ [13])) ++ 10 :: ([13] ++ 10 :: rest)) := by
    rw [bytes_contentLength]; simp
  obtain ⟨f, hf⟩ : ∃ f,
      (bytes "Content-Length: " ++ v ++ [13, 10, 13, 10] ++ rest).length + 1 = f + 2 :=
    ⟨(bytes "Content-Length: " ++ v ++ [13, 10, 13, 10] ++ rest).length - 1, by
      simp only [List.length_append, List.length_cons, List.length_nil]; omega⟩
  have e2 : 32 :: (v ++ [13]) ++ [10] = 32 :: (v ++ [13, 10]) := by simp
  have hh : readHeaders u (f + 2) 0 (bytes "Content-Length: " ++ v ++ [13, 10, 13, 10] ++ rest) =
      Headers.block (ParseInt v).1 rest := by
    rw [e, readHeaders_header u (f + 1) 0 _ _ _ (by decide) (by decide) h10]
    rw [if_pos rfl, e2, TrimSpace_plain u v hne hv]
    exact readHeaders_noColon u f _ [13] rest (by decide) (by decide)
  unfold readFrame
  rw [hf, hh]

/-- C4, as the code behaves: for `Content-Length: 2147483648`, a decimal
number outside the 32-bit range, `strconv.ParseInt` fails with a range error
and returns 2147483647; `pumpStdout` discards the error, allocates a payload
of 2147483647 bytes and writes it (all zero here, as no input follows) as the
transport message. -/
theorem pumpStdout_length_out_of_range (u : UnicodeTrim) :
    ParseInt (bytes "2147483648") = (2147483647, some NumErr.outOfRange) ∧
    readFrame u (bytes "Content-Length: 2147483648\r\n\r\n") =
      Frame.payload (List.replicate 2147483647 0) [] ∧
    pumpStdout u (bytes "Content-Length: 2147483648\r\n\r\n") [] =
      Event.wsWriteMessage (List.replicate 2147483647 0) :: afterLoop := by
  have hp : ParseInt (bytes "2147483648") = (2147483647, some NumErr.outOfRange) := by decide
  have e : bytes "Content-Length: 2147483648\r\n\r\n" =
      bytes "Content-Length: " ++ bytes "2147483648" ++ [13, 10, 13, 10] ++ [] := by decide
  have hf : readFrame u (bytes "Content-Length: 2147483648\r\n\r\n") =
      Frame.payload (List.replicate 2147483647 0) [] := by
    rw [e, readFrame_value u (bytes "2147483648") [] (by decide) (by decide), hp]
    have h0 : ¬ ((2147483647 : Int) < 0) := by decide
    have h1 : (2147483647 : Int).toNat = 2147483647 := rfl
    simp only [h0, if_false, h1, ReadFull, List.take_nil, List.length_nil, Nat.sub_zero,
      List.nil_append, List.drop_nil]
  refine ⟨hp, hf, ?_⟩
  rw [pumpStdout_step u _ _ [] [] hf rfl, pumpStdout_nil]

/-- C10, as the code behaves: for `Content-Length: -5` the parsed length is
-5 and `make([]byte, length)` panics; `pumpStdout` ends in the panic, with
no message written and `done` not closed. -/
theorem pumpStdout_negative_length (u : UnicodeTrim) (os : List Bool) :
    ParseInt (bytes "-5") = (-5, none) ∧
    readFrame u (bytes "Content-Length: -5\r\n\r\n") = Frame.panicked ∧
    pumpStdout u (bytes "Content-Length: -5\r\n\r\n") os = [Event.panicMakeslice] := by
  have hp : ParseInt (bytes "-5") = (-5, none) := by decide
  have e : bytes "Content-Length: -5\r\n\r\n" =
      bytes "Content-Length: " ++ bytes "-5" ++ [13, 10, 13, 10] ++ [] := by decide
  have hf : readFrame u (bytes "Content-Length: -5\r\n\r\n") = Frame.panicked := by
    rw [e, readFrame_value u (bytes "-5") [] (by decide) (by decide), hp]
    rfl
  refine ⟨hp, hf, ?_⟩
  simp [pumpStdout, pumpStdoutRun, pumpStdoutLoop, hf]

/-- C6, as the code behaves: for `Content-Length: 5` followed by only two
payload bytes, `io.ReadFull` stops at the end of the input, its error is
discarded, and `pumpStdout` writes a transport message of five bytes: the
two bytes read and three zero bytes. -/
theorem pumpStdout_truncated_payload (u : UnicodeTrim) :
    readFrame u (bytes "Content-Length: 5\r\n\r\nab") = Frame.payload [97, 98, 0, 0, 0] [] ∧
    pumpStdout u (bytes "Content-Length: 5\r\n\r\nab") [] =
      Event.wsWriteMessage [97, 98, 0, 0, 0] :: afterLoop := by
  have e : bytes "Content-Length: 5\r\n\r\nab" =
      bytes "Content-Length: " ++ decimal 5 ++ [13, 10, 13, 10] ++ [97, 98] := by decide
  have hf : readFrame u (bytes "Content-Length: 5\r\n\r\nab") =
      Frame.payload [97, 98, 0, 0, 0] [] := by
    rw [e, readFrame_contentLength u 5 [97, 98] (by decide)]
    rfl
  refine ⟨hf, ?_⟩
  rw [pumpStdout_step u _ _ [] [] hf rfl, pumpStdout_nil]

/-- End of input inside the header block: the loop is left with no message
written (the part of C6 the code keeps). -/
theorem pumpStdout_eof_in_headers (u : UnicodeTrim) (line : List Byte) (os : List Bool)
    (hn : (10 : Byte) ∉ line) : pumpStdout u line os = afterLoop := by
  have hr : ∀ l : List Byte, (10 : Byte) ∉ l → (ReadString 10 l).eof = true := by
    intro l
    induction l with
    | nil => intro _; rfl
    | cons b l ih =>
      intro h
      have hb : b ≠ 10 := fun e => h (by simp [e])
      have hl : (10 : Byte) ∉ l := fun e => h (by simp [e])
      simp [ReadString, hb, ih hl]
  have hf : readFrame u line = Frame.eof := by
    simp [readFrame, readHeaders, hr line hn]
  simp [pumpStdout, pumpStdoutRun, pumpStdoutLoop, hf]

/-- C5: for a header block of lines `name:text` with names other than
`Content-Length`, ended by a blank line (`\r\n` or `\n`), the decoded frame
has the empty payload and leaves the input right after the blank line;
`pumpStdout` writes an empty transport message and, when the write
succeeds, goes on with the bytes after the blank line. -/
theorem pumpStdout_no_contentLength (u : UnicodeTrim) (hs : List (List Byte × List Byte))
    (blank rest : List Byte) (os : List Bool) (hh : ∀ h ∈ hs, OtherHeader h)
    (hb : blank = bytes "\r\n" ∨ blank = bytes "\n") :
    readFrame u (headerBlock hs blank ++ rest) = Frame.payload [] rest ∧
    pumpStdout u (headerBlock hs blank ++ rest) os =
      if os.head?.getD true = true then Event.wsWriteMessage [] :: pumpStdout u rest os.tail
      else [Event.wsWriteMessage [], Event.wsClose] ++ afterLoop := by
  have hb2 : blank = [13, 10] ∨ blank = [10] := by
    rcases hb with h | h
    · exact Or.inl (by rw [h]; decide)
    · exact Or.inr (by rw [h]; decide)
  have hl := headerBlock_length hs blank
  have hf : readFrame u (headerBlock hs blank ++ rest) = Frame.payload [] rest := by
    unfold readFrame
    rw [readHeaders_otherHeaders u hs _ 0 blank rest hh hb2
      (by simp only [List.length_append]; omega)]
    simp [ReadFull]
  refine ⟨hf, ?_⟩
  split_ifs with hw
  · exact pumpStdout_step u _ [] rest os hf hw
  · exact pumpStdout_writeFailed u _ [] rest os hf (by simpa using hw)

/-- Witness for C5: two headers, a blank line, then a frame with a length. -/
theorem pumpStdout_no_contentLength_witness :
    ((∀ h ∈ [(bytes "Content-Type", bytes " text\r"), (bytes "X-Seq", bytes "7")],
        OtherHeader h) ∧
      (bytes "\r\n" = bytes "\r\n" ∨ bytes "\r\n" = bytes "\n")) ∧
    (readFrame asciiOnly
        (headerBlock [(bytes "Content-Type", bytes " text\r"), (bytes "X-Seq", bytes "7")]
          (bytes "\r\n") ++ bytes "Content-Length: 1\r\n\r\nx") =
        Frame.payload [] (bytes "Content-Length: 1\r\n\r\nx") ∧
      pumpStdout asciiOnly
        (headerBlock [(bytes "Content-Type", bytes " text\r"), (bytes "X-Seq", bytes "7")]
          (bytes "\r\n") ++ bytes "Content-Length: 1\r\n\r\nx") [] =
        if ([] : List Bool).head?.getD true = true then
          Event.wsWriteMessage [] ::
            pumpStdout asciiOnly (bytes "Content-Length: 1\r\n\r\nx") ([] : List Bool).tail
        else [Event.wsWriteMessage [], Event.wsClose] ++ afterLoop) ∧
    headerBlock [(bytes "Content-Type", bytes " text\r"), (bytes "X-Seq", bytes "7")]
        (bytes "\r\n") ++ bytes "Content-Length: 1\r\n\r\nx" =
      bytes "Content-Type: text\r\nX-Seq:7\n\r\nContent-Length: 1\r\n\r\nx" ∧
    pumpStdout asciiOnly
        (bytes "Content-Type: text\r\nX-Seq:7\n\r\nContent-Length: 1\r\n\r\nx") [] =
      [Event.wsWriteMessage [], Event.wsWriteMessage (bytes "x")] ++ afterLoop :=
  ⟨⟨by decide, Or.inl rfl⟩,
    pumpStdout_no_contentLength asciiOnly _ (bytes "\r\n") (bytes "Content-Length: 1\r\n\r\nx") []
      (by decide) (Or.inl rfl),
    by decide, by decide⟩

/-- The loop of `pumpStdout` ends on every finite input: at end of input,
after a failed write, or in a panic. -/
theorem pumpStdout_terminates (u : UnicodeTrim) (rd : List Byte) (os : List Bool) :
    (pumpStdoutRun u rd os).2 = LoopExit.eof ∨
    (pumpStdoutRun u rd os).2 = LoopExit.writeFailed ∨
    (pumpStdoutRun u rd os).2 = LoopExit.panicked := by
  have h := pumpStdoutLoop_total u (rd.length + 1) rd os (by omega)
  unfold pumpStdoutRun
  cases hx : (pumpStdoutLoop u (rd.length + 1) rd os).2 with
  | eof => simp
  | writeFailed => simp
  | panicked => simp
  | outOfFuel => exact absurd hx h

/-! ## The outbound pump: the termination signal -/

/-- C8: in every run of `pumpStdout` whose loop is left, at end of input or
after a failed transport write, `close(done)` happens exactly once: the
trace is the events of the loop (message writes and at most a close of the
connection, no `close(done)`), then `close(done)`, then the close message,
the grace period and the close of the connection. -/
theorem pumpStdout_done_once (u : UnicodeTrim) (rd : List Byte) (os : List Bool)
    (hx : (pumpStdoutRun u rd os).2 = LoopExit.eof ∨
      (pumpStdoutRun u rd os).2 = LoopExit.writeFailed) :
    pumpStdout u rd os = (pumpStdoutRun u rd os).1 ++
      [Event.closeDone, Event.wsWriteClose, Event.sleepGrace, Event.wsClose] ∧
    Event.closeDone ∉ (pumpStdoutRun u rd os).1 ∧
    (pumpStdout u rd os).count Event.closeDone = 1 := by
  have hnot : Event.closeDone ∉ (pumpStdoutRun u rd os).1 := by
    intro h
    rcases pumpStdoutLoop_events u _ rd os _ h with ⟨d, hd⟩ | hd | hd <;> cases hd
  have he : pumpStdout u rd os = (pumpStdoutRun u rd os).1 ++
      [Event.closeDone, Event.wsWriteClose, Event.sleepGrace, Event.wsClose] := by
    unfold pumpStdout
    rcases hx with h | h <;> simp only [h] <;> rfl
  refine ⟨he, hnot, ?_⟩
  rw [he, List.count_append, List.count_eq_zero.mpr hnot]
  decide

/-- Witness for C8: one run left at end of input and one left after a failed
write. -/
theorem pumpStdout_done_once_witness :
    ((pumpStdoutRun asciiOnly (bytes "Content-Length: 4\r\n\r\npong") []).2 = LoopExit.eof ∨
      (pumpStdoutRun asciiOnly (bytes "Content-Length: 4\r\n\r\npong") []).2 =
        LoopExit.writeFailed) ∧
    (pumpStdout asciiOnly (bytes "Content-Length: 4\r\n\r\npong") [] =
      (pumpStdoutRun asciiOnly (bytes "Content-Length: 4\r\n\r\npong") []).1 ++
        [Event.closeDone, Event.wsWriteClose, Event.sleepGrace, Event.wsClose] ∧
    Event.closeDone ∉ (pumpStdoutRun asciiOnly (bytes "Content-Length: 4\r\n\r\npong") []).1 ∧
    (pumpStdout asciiOnly (bytes "Content-Length: 4\r\n\r\npong") []).count Event.closeDone = 1) ∧
    pumpStdout asciiOnly (bytes "Content-Length: 4\r\n\r\npong") [false] =
      [Event.wsWriteMessage (bytes "pong"), Event.wsClose, Event.closeDone, Event.wsWriteClose,
        Event.sleepGrace, Event.wsClose] :=
  ⟨Or.inl (by decide),
    pumpStdout_done_once asciiOnly (bytes "Content-Length: 4\r\n\r\npong") [] (Or.inl (by decide)),
    by decide⟩

/-! ## The session -/

theorem pumpStdinLoop_events (limit : Nat) (ms : List (List Byte)) : ∀ (os : List WriteOutcome),
    ∀ e ∈ pumpStdinLoop limit ms os, ∃ p, e = Event.stdinWrite p := by
  induction ms with
  | nil => intro os e he; simp [pumpStdinLoop] at he
  | cons m ms ih =>
    intro os e he
    simp only [pumpStdinLoop] at he
    split_ifs at he
    · simp at he
    · split at he
      · simp only [List.mem_singleton] at he
        exact ⟨_, he⟩
      · split at he
        · rcases List.mem_cons.mp he with h | h
          · exact ⟨_, h⟩
          · simp only [List.mem_singleton] at h
            exact ⟨_, h⟩
        · rcases List.mem_cons.mp he with h | h
          · exact ⟨_, h⟩
          · rcases List.mem_cons.mp h with h | h
            · exact ⟨_, h⟩
            · exact ih _ e h

/-- C7 as stated fails: in the session whose peer goes away at once,
`serveWs` returns and the transport connection is closed (by the deferred
`ws.Close()` of `pumpStdin`) before the subprocess input stream is closed. -/
theorem serveWs_closes_transport_first :
    serveWs ⟨true, [], [], DoneTiming.beforeTimeout⟩ =
      ([Event.cmdStart, Event.goPumpStdout, Event.goPing, Event.wsClose, Event.inwClose,
        Event.signalInterrupt, Event.recvDone, Event.processWait, Event.wsClose],
        Outcome.returned) ∧
    Event.wsClose ∈
      (serveWs ⟨true, [], [], DoneTiming.beforeTimeout⟩).1.takeWhile
        (fun e => e ≠ Event.inwClose) := by
  decide

/-- C7, amended: whenever `serveWs` returns after a successful upgrade, its
effects are, in this order: the start of the subprocess and of the two
goroutines, the writes of `pumpStdin` to the subprocess input, the close of
the transport connection deferred in `pumpStdin`, the close of the
subprocess input stream, the interrupt, the kill exactly when `done` was
not closed within the second, the receive from `done`, `Wait`, and last the
close of the transport connection deferred in `serveWs`. -/
theorem serveWs_release_order (s : Session) (hu : s.upgradeOk = true)
    (hr : (serveWs s).2 = Outcome.returned) :
    ∃ writes : List Event, (∀ e ∈ writes, ∃ p, e = Event.stdinWrite p) ∧
      (serveWs s).1 = [Event.cmdStart, Event.goPumpStdout, Event.goPing] ++ writes ++
        [Event.wsClose, Event.inwClose, Event.signalInterrupt] ++
        (if s.doneAt = DoneTiming.beforeTimeout then [] else [Event.signalKill]) ++
        [Event.recvDone, Event.processWait, Event.wsClose] := by
  refine ⟨pumpStdinLoop 0 s.incoming s.stdin, pumpStdinLoop_events 0 s.incoming s.stdin, ?_⟩
  obtain ⟨up, inc, sin, dn⟩ := s
  simp only at hu
  subst hu
  cases dn with
  | beforeTimeout => simp [serveWs, pumpStdin, Upgrade]
  | afterTimeout => simp [serveWs, pumpStdin, Upgrade]
  | never => simp [serveWs] at hr

/-- Witness for C7: a session with one message, killed after the timeout. -/
theorem serveWs_release_order_witness :
    ((⟨true, [bytes "hi"], [], DoneTiming.afterTimeout⟩ : Session).upgradeOk = true ∧
      (serveWs ⟨true, [bytes "hi"], [], DoneTiming.afterTimeout⟩).2 = Outcome.returned) ∧
    ∃ writes : List Event, (∀ e ∈ writes, ∃ p, e = Event.stdinWrite p) ∧
      (serveWs ⟨true, [bytes "hi"], [], DoneTiming.afterTimeout⟩).1 =
        [Event.cmdStart, Event.goPumpStdout, Event.goPing] ++ writes ++
        [Event.wsClose, Event.inwClose, Event.signalInterrupt] ++
        (if (⟨true, [bytes "hi"], [], DoneTiming.afterTimeout⟩ : Session).doneAt =
          DoneTiming.beforeTimeout then [] else [Event.signalKill]) ++
        [Event.recvDone, Event.processWait, Event.wsClose] :=
  ⟨⟨rfl, by decide⟩,
    serveWs_release_order ⟨true, [bytes "hi"], [], DoneTiming.afterTimeout⟩ rfl (by decide)⟩

end LspProxy
